import Mathlib

/-!
Verification of the linkterm session bridge (server `handleTerminal`, the
client `NewClient` / `Connect` / disconnect logic, and the shared duration
formatting) against its natural-language specification.  The Go source is
shallowly embedded: strings are lists of characters, `strconv.Atoi` becomes
`goAtoi`, `strings.Split` / `strings.SplitN` become `splitChar` / `splitNChar`,
and the Go `uint16` conversion becomes reduction modulo 2^16.
-/

namespace Linkterm

/-! ## Decimal parsing and printing (strconv.Atoi, fmt.Sprintf %d) -/

/-- Value of a list of decimal digit characters, most significant first,
as computed by Go's ParseInt digit loop. -/
def digitsVal (l : List Char) : Nat :=
  l.foldl (fun a c => 10 * a + (c.toNat - 48)) 0

/-- Parse a non-empty all-digit string to its value; `none` otherwise.
Models the digit-consuming core of Go's `strconv.ParseInt` in base 10. -/
def parseDigits (l : List Char) : Option Nat :=
  if l ≠ [] ∧ l.all Char.isDigit then some (digitsVal l) else none

/-- Largest value of Go's 64-bit `int`. -/
def int64Max : Nat := 9223372036854775807

/-- Model of Go's `strconv.Atoi` (= `ParseInt(s, 10, 0)` with 64-bit `int`):
optional single leading sign, then one or more decimal digits, with a range
check; any failure (including empty input or overflow) is an error, which the
server treats as `none`. -/
def goAtoi (l : List Char) : Option Int :=
  match l with
  | [] => none
  | c :: rest =>
    if c = '+' then
      match parseDigits rest with
      | some n => if n ≤ int64Max then some (n : Int) else none
      | none => none
    else if c = '-' then
      match parseDigits rest with
      | some n => if n ≤ int64Max + 1 then some (-(n : Int)) else none
      | none => none
    else
      match parseDigits l with
      | some n => if n ≤ int64Max then some (n : Int) else none
      | none => none

/-- Model of Go's `strings.Split(s, sep)` for a one-character separator,
with an accumulator for the current field. -/
def splitChar (sep : Char) : List Char → List Char → List (List Char)
  | [], acc => [acc.reverse]
  | c :: cs, acc =>
    if c = sep then acc.reverse :: splitChar sep cs []
    else splitChar sep cs (c :: acc)

/-- Model of Go's `strings.SplitN(s, sep, n)` for a one-character separator;
the budget is the number of separators still allowed to split (n - 1), and
once it reaches zero every remaining character, separators included, joins
the final field. -/
def splitNChar (sep : Char) : List Char → Nat → List Char → List (List Char)
  | [], _, acc => [acc.reverse]
  | c :: cs, 0, acc => splitNChar sep cs 0 (c :: acc)
  | c :: cs, b + 1, acc =>
    if c = sep then acc.reverse :: splitNChar sep cs b []
    else splitNChar sep cs (b + 1) (c :: acc)

/-- Fuel-driven decimal printer: digits of `n`, most significant first
(empty for 0); the fuel dominates the number of digits. -/
def natReprAux : Nat → Nat → List Char
  | 0, _ => []
  | _ + 1, 0 => []
  | f + 1, n + 1 =>
    natReprAux f ((n + 1) / 10) ++ [Nat.digitChar ((n + 1) % 10)]

/-- Decimal representation of a natural number, as Go's `fmt.Sprintf`
verb `d` prints it. -/
def natReprL (n : Nat) : List Char :=
  if n = 0 then ['0'] else natReprAux n n

/-- String form of `natReprL`. -/
def natRepr (n : Nat) : String :=
  ⟨natReprL n⟩

/-! ## Shared duration formatting (server.go closeSession, cli.go disconnect)

Both roles compute `hours = int(duration.Hours())`,
`minutes = int(duration.Minutes()) % 60`, `seconds = int(duration.Seconds()) % 60`
from a whole-second elapsed duration and pick the coarsest non-zero unit. -/

/-- Duration formatting from `closeSession` (server.go:151-165) and the client
`disconnect` closure (cli.go:338-351), for a whole-second duration `d`. -/
def formatDuration (d : Nat) : String :=
  let hours := d / 3600
  let minutes := (d / 60) % 60
  let seconds := d % 60
  if 0 < hours then
    natRepr hours ++ " hours, " ++ natRepr minutes ++ " minutes, " ++
      natRepr seconds ++ " seconds"
  else if 0 < minutes then
    natRepr minutes ++ " minutes, " ++ natRepr seconds ++ " seconds"
  else
    natRepr seconds ++ " seconds"

/-! ## Server inbound message handling (server.go handleTerminal, lines 179-217) -/

/-- gorilla/websocket `TextMessage` constant. -/
def websocketTextMessage : Nat := 1

/-- gorilla/websocket `BinaryMessage` constant. -/
def websocketBinaryMessage : Nat := 2

/-- The reserved control marker `"resize:"` checked at server.go:196. -/
def resizeTag : List Char := "resize:".data

/-- Go conversion `uint16(i)` of a Go `int`: the low 16 bits. -/
def goUInt16 (i : Int) : Nat :=
  (i % 65536).toNat

/-- Effect of one inbound message on the PTY, as decided by the server's
inbound pump. -/
inductive ServerAction where
  | setSize (cols rows : Nat)
  | writePty (data : List Char)
  | noAction
  deriving DecidableEq

/-- The server's per-message decode from handleTerminal (server.go:194-215):
a text message of length greater than 7 whose first seven characters are
`resize:` is split on `:`; with exactly two fields that `Atoi` to positive
integers the PTY is resized to their `uint16` truncations; other text messages
are written to the PTY verbatim; non-text messages are ignored. -/
def handleTerminalMsg (messageType : Nat) (p : List Char) : ServerAction :=
  if messageType = websocketTextMessage then
    if 7 < p.length ∧ p.take 7 = resizeTag then
      match splitChar ':' (p.drop 7) [] with
      | [s1, s2] =>
        match goAtoi s1, goAtoi s2 with
        | some cols, some rows =>
          if 0 < cols ∧ 0 < rows then
            ServerAction.setSize (goUInt16 cols) (goUInt16 rows)
          else ServerAction.noAction
        | _, _ => ServerAction.noAction
      | _ => ServerAction.noAction
    else ServerAction.writePty p
  else ServerAction.noAction

/-- Whether a post-marker remainder decodes to an applicable resize: exactly
two `:`-separated fields, both parsing as positive integers (the success
condition of server.go:198-202). -/
def resizeWellFormed (rest : List Char) : Bool :=
  match splitChar ':' rest [] with
  | [s1, s2] =>
    match goAtoi s1, goAtoi s2 with
    | some cols, some rows => decide (0 < cols) && decide (0 < rows)
    | _, _ => false
  | _ => false

/-! ## Session teardown (server.go closeSession, lines 130-168) -/

/-- Teardown steps of `closeSession`. -/
inductive TeardownAction where
  | closePty
  | signalTerm
  | forceKill
  deriving DecidableEq

/-- The grace period `time.Second` of server.go:145, in nanoseconds. -/
def graceNs : Nat := 1000000000

/-- Whether the child's voluntary exit (at `t` nanoseconds after SIGTERM;
`none` when it never exits) makes the `done` channel win the `select`
against the one-second timer. -/
def exitsWithinGrace : Option Nat → Bool
  | some t => t < graceNs
  | none => false

/-- Teardown action sequence of `closeSession` (server.go:130-149): close the
PTY, send SIGTERM, then `select` between the child's exit and a one-second
timer, force-killing only when the timer fires first.  The child's voluntary
exit time after SIGTERM abstracts the scheduler. -/
def closeSessionActions (exitAfterNs : Option Nat) : List TeardownAction :=
  TeardownAction.closePty :: TeardownAction.signalTerm ::
    (if exitsWithinGrace exitAfterNs then [] else [TeardownAction.forceKill])

/-! ## Client model (cli.go NewClient / SetCustomDialer / Connect) -/

/-- The scheme marker `"ws://"`. -/
def wsScheme : List Char := "ws://".data

/-- The scheme marker `"wss://"`. -/
def wssScheme : List Char := "wss://".data

/-- The scheme marker `"http://"`. -/
def httpScheme : List Char := "http://".data

/-- The scheme marker `"https://"`. -/
def httpsScheme : List Char := "https://".data

/-- The fixed session path `"/terminal"` appended by `NewClient`. -/
def terminalPath : List Char := "/terminal".data

/-- Scheme conversion step of `NewClient` (cli.go:271-277): `http://` becomes
`ws://`, `https://` becomes `wss://`, and anything carrying neither a `ws://`
nor a `wss://` marker gets `ws://` prepended.  `strings.HasPrefix s p` is
modelled as `s.take p.length = p` and `strings.TrimPrefix` as the matching
`drop`. -/
def normalizeScheme (l : List Char) : List Char :=
  if l.take 7 = httpScheme then wsScheme ++ l.drop 7
  else if l.take 8 = httpsScheme then wssScheme ++ l.drop 8
  else if ¬ (l.take 5 = wsScheme ∨ l.take 6 = wssScheme) then wsScheme ++ l
  else l

/-- URL computed by `NewClient` (cli.go:265-283): empty input defaults to
`ws://localhost/terminal`, the scheme is normalized, and `/terminal` is
appended when `strings.SplitN(url, "/", 4)` yields exactly three parts
(scheme, empty, domain). -/
def newClientURLList (l : List Char) : List Char :=
  let l1 := if l = [] then "ws://localhost/terminal".data else l
  let l2 := normalizeScheme l1
  if (splitNChar '/' l2 3 []).length = 3 then l2 ++ terminalPath else l2

/-- A gorilla/websocket `Dialer`, abstracted to the fields the CLI sets
(`Proxy`, `HandshakeTimeout`) plus one opaque field standing for all the
remaining configuration. -/
structure WSDialer where
  proxy : Option String
  handshakeTimeoutNs : Nat
  rest : Nat
  deriving DecidableEq

/-- The `Client` struct of cli.go:258-262 (`URL`, nil-able `dialer`; the
logger carries no session-relevant state). -/
structure Client where
  URL : String
  dialer : Option WSDialer

/-- `NewClient` (cli.go:265-290): normalized URL, default dialer slot. -/
def NewClient (url : String) : Client :=
  { URL := ⟨newClientURLList url.data⟩, dialer := none }

/-- `Client.SetCustomDialer` (cli.go:293-295). -/
def SetCustomDialer (c : Client) (d : WSDialer) : Client :=
  { c with dialer := some d }

/-- `websocket.DefaultDialer`: proxy from environment, 45-second handshake
timeout. -/
def defaultDialer : WSDialer :=
  { proxy := none, handshakeTimeoutNs := 45000000000, rest := 0 }

/-- The dialer in effect when `Client.Connect` dials (cli.go:307-312): the
custom dialer if set, else the default, with `HandshakeTimeout` then
unconditionally assigned 5 seconds. -/
def connectEffectiveDialer (c : Client) : WSDialer :=
  let d := match c.dialer with
    | some d => d
    | none => defaultDialer
  { d with handshakeTimeoutNs := 5000000000 }

/-- The custom dialer `runClient` builds for a proxy (cli.go:208-227):
the proxy URL plus a 10-second handshake timeout. -/
def cliProxyDialer (p : String) : WSDialer :=
  { proxy := some p, handshakeTimeoutNs := 10000000000, rest := 0 }

/-- The client resize encoder `fmt.Sprintf("resize:%d:%d", w, h)`
(cli.go:397 and cli.go:413). -/
def encodeResizeList (cols rows : Nat) : List Char :=
  resizeTag ++ (natReprL cols ++ ':' :: natReprL rows)

/-! ## Client disconnect (cli.go:330-356) -/

/-- The single line printed on disconnect (cli.go:354). -/
def disconnectLine (durSecs : Nat) (reason : String) : String :=
  "\r\x1b[KDisconnected from terminal server after " ++ formatDuration durSecs ++
    " (" ++ reason ++ ")\n"

/-- State of the client's disconnect coordination: whether the `sync.Once`
has been consumed (which also sets `hasDisconnected`), and the lines printed
so far. -/
structure DisconnectState where
  onceDone : Bool
  printed : List String
  deriving DecidableEq

/-- The `disconnect` closure (cli.go:335-356): under `disconnectOnce.Do`,
format the elapsed duration and print one line carrying the given reason;
once consumed, every further call leaves the state untouched. -/
def clientDisconnect (durSecs : Nat) (st : DisconnectState) (reason : String) :
    DisconnectState :=
  if st.onceDone then st
  else { onceDone := true, printed := st.printed ++ [disconnectLine durSecs reason] }

/-! ## Shared-flag access discipline (server.go isClosing, lines 176-252) -/

/-- Synchronization discipline of one access to shared state. -/
inductive SyncDiscipline where
  | unsynchronized
  | atomicOp
  | mutexGuarded
  deriving DecidableEq

/-- Read or write. -/
inductive MemAccessKind where
  | readAccess
  | writeAccess
  deriving DecidableEq

/-- One access to the `isClosing` flag: which concurrent goroutine performs
it, its kind, its discipline, and the source line. -/
structure FlagAccess where
  goroutine : Nat
  kind : MemAccessKind
  sync : SyncDiscipline
  line : Nat
  deriving DecidableEq

/-- The accesses to the plain `bool` `isClosing` in `handleTerminal`
(declared server.go:176): goroutine 1 is the inbound pump (server.go:179-217),
goroutine 2 the outbound pump (server.go:222-243), goroutine 3 the exit
watcher (server.go:246-253).  No `sync/atomic` call and no mutex guards any
of them in the source. -/
def isClosingAccesses : List FlagAccess :=
  [⟨1, MemAccessKind.readAccess, SyncDiscipline.unsynchronized, 183⟩,
   ⟨1, MemAccessKind.writeAccess, SyncDiscipline.unsynchronized, 189⟩,
   ⟨2, MemAccessKind.readAccess, SyncDiscipline.unsynchronized, 228⟩,
   ⟨2, MemAccessKind.readAccess, SyncDiscipline.unsynchronized, 236⟩,
   ⟨2, MemAccessKind.writeAccess, SyncDiscipline.unsynchronized, 239⟩,
   ⟨3, MemAccessKind.writeAccess, SyncDiscipline.unsynchronized, 252⟩]

/-- The discipline the specification demands of the closing flag: every
access is atomic or mutex-guarded. -/
def guardedDiscipline (accs : List FlagAccess) : Prop :=
  ∀ a ∈ accs, a.sync ≠ SyncDiscipline.unsynchronized

/-- A Go data race: two accesses of the flag from different goroutines, at
least one a write, neither synchronized. -/
def hasDataRace (accs : List FlagAccess) : Prop :=
  ∃ a ∈ accs, ∃ b ∈ accs,
    a.goroutine ≠ b.goroutine ∧
    (a.kind = MemAccessKind.writeAccess ∨ b.kind = MemAccessKind.writeAccess) ∧
    a.sync = SyncDiscipline.unsynchronized ∧ b.sync = SyncDiscipline.unsynchronized

/-! ## Specification-side URL normalization (for comparison with NewClient)

These definitions follow the words of the specification claim: rewrite an
`http://` marker to `ws://` and `https://` to `wss://`, prepend `ws://` when
the string carries neither socket scheme, and append `/terminal` exactly when
the normalized URL has no path component after the host. -/

/-- Scheme rewriting exactly as the claim words it. -/
def specNormalizeScheme (l : List Char) : List Char :=
  if l.take 7 = httpScheme then wsScheme ++ l.drop 7
  else if l.take 8 = httpsScheme then wssScheme ++ l.drop 8
  else if ¬ (l.take 5 = wsScheme ∨ l.take 6 = wssScheme) then wsScheme ++ l
  else l

/-- The part of a scheme-normalized URL after its scheme marker. -/
def afterSchemeChars (s : List Char) : List Char :=
  if s.take 6 = wssScheme then s.drop 6 else s.drop 5

/-- The claim's normalization: scheme rewriting, then `/terminal` appended
exactly when no `/` occurs after the host, i.e. no path component. -/
def specNewClientURL (l : List Char) : List Char :=
  let s := specNormalizeScheme l
  if '/' ∈ afterSchemeChars s then s else s ++ terminalPath

/-! ## Lemmas: decimal printing and parsing -/

theorem digitChar_isDigit {d : Nat} (h : d < 10) :
    (Nat.digitChar d).isDigit = true := by
  interval_cases d <;> decide

theorem digitChar_toNat {d : Nat} (h : d < 10) :
    (Nat.digitChar d).toNat = 48 + d := by
  interval_cases d <;> decide

theorem natReprAux_zero (f : Nat) : natReprAux f 0 = [] := by
  cases f <;> rfl

theorem natReprAux_all_isDigit : ∀ f n, (natReprAux f n).all Char.isDigit = true
  | 0, _ => rfl
  | _ + 1, 0 => rfl
  | f + 1, n + 1 => by
    have hm : (n + 1) % 10 < 10 := Nat.mod_lt _ (by omega)
    simp [natReprAux, List.all_append, natReprAux_all_isDigit f ((n + 1) / 10),
      digitChar_isDigit hm]

theorem digitsVal_append_digit (xs : List Char) (c : Char) :
    digitsVal (xs ++ [c]) = 10 * digitsVal xs + (c.toNat - 48) := by
  simp [digitsVal, List.foldl_append]

theorem natReprAux_val (f : Nat) : ∀ n, n ≤ f → digitsVal (natReprAux f n) = n := by
  induction f with
  | zero =>
    intro n h
    interval_cases n
    simp [natReprAux_zero, digitsVal]
  | succ f ih =>
    intro n h
    match n with
    | 0 => simp [natReprAux_zero, digitsVal]
    | n + 1 =>
      have hq : (n + 1) / 10 ≤ f := by
        have := Nat.div_lt_self (Nat.succ_pos n) (by omega : 1 < 10)
        omega
      have hm : (n + 1) % 10 < 10 := Nat.mod_lt _ (by omega)
      have hrw : natReprAux (f + 1) (n + 1) =
          natReprAux f ((n + 1) / 10) ++ [Nat.digitChar ((n + 1) % 10)] := rfl
      rw [hrw, digitsVal_append_digit, ih _ hq, digitChar_toNat hm]
      omega

theorem natReprL_all_isDigit (n : Nat) : (natReprL n).all Char.isDigit = true := by
  unfold natReprL
  split
  · decide
  · exact natReprAux_all_isDigit n n

theorem natReprL_ne_nil (n : Nat) : natReprL n ≠ [] := by
  unfold natReprL
  split
  · simp
  · next h =>
    match n, h with
    | n + 1, _ => simp [natReprAux]

theorem digitsVal_natReprL (n : Nat) : digitsVal (natReprL n) = n := by
  unfold natReprL
  split
  · next h => subst h; decide
  · exact natReprAux_val n n le_rfl

theorem isDigit_ne_colon {c : Char} (h : c.isDigit = true) : c ≠ ':' := by
  intro hc
  subst hc
  exact absurd h (by decide)

theorem all_isDigit_colon_not_mem {l : List Char}
    (h : l.all Char.isDigit = true) : ':' ∉ l := by
  intro hmem
  exact absurd (List.all_eq_true.mp h _ hmem) (by decide)

theorem parseDigits_of_digits {l : List Char} (h1 : l ≠ [])
    (h2 : l.all Char.isDigit = true) : parseDigits l = some (digitsVal l) := by
  simp [parseDigits, h1, h2]

theorem goAtoi_of_digits {l : List Char} (h1 : l ≠ [])
    (h2 : l.all Char.isDigit = true) (h3 : digitsVal l ≤ int64Max) :
    goAtoi l = some (digitsVal l : Int) := by
  match l with
  | c :: rest =>
    have hc : c.isDigit = true := by
      have := List.all_eq_true.mp h2 c (List.mem_cons_self c rest)
      exact this
    have hplus : c ≠ '+' := by
      intro hh; subst hh; exact absurd hc (by decide)
    have hminus : c ≠ '-' := by
      intro hh; subst hh; exact absurd hc (by decide)
    rw [goAtoi]
    simp [hplus, hminus, parseDigits_of_digits h1 h2, h3]

theorem goAtoi_natReprL {n : Nat} (h : n ≤ int64Max) :
    goAtoi (natReprL n) = some (n : Int) := by
  rw [goAtoi_of_digits (natReprL_ne_nil n) (natReprL_all_isDigit n)
    (by rw [digitsVal_natReprL]; exact h), digitsVal_natReprL]

theorem parseDigits_all {l : List Char} {n : Nat} (h : parseDigits l = some n) :
    l.all Char.isDigit = true := by
  unfold parseDigits at h
  split at h
  · next hcond => exact hcond.2
  · exact absurd h (by simp)

theorem goAtoi_no_colon : ∀ {l : List Char} {v : Int}, goAtoi l = some v → ':' ∉ l := by
  intro l v h hmem
  match l with
  | [] => exact absurd h (by simp [goAtoi])
  | c :: rest =>
    rw [goAtoi] at h
    by_cases hp : c = '+'
    · simp only [hp, if_true] at h
      match hpd : parseDigits rest with
      | none => rw [hpd] at h; exact absurd h (by simp)
      | some m =>
        rw [hpd] at h
        have hall := parseDigits_all hpd
        rcases List.mem_cons.mp hmem with hh | hh
        · subst hp; exact absurd hh.symm (by decide)
        · exact absurd (List.all_eq_true.mp hall _ hh) (by decide)
    · by_cases hm : c = '-'
      · simp only [hp, hm, if_false, if_true] at h
        match hpd : parseDigits rest with
        | none => rw [hpd] at h; exact absurd h (by simp)
        | some m =>
          rw [hpd] at h
          have hall := parseDigits_all hpd
          rcases List.mem_cons.mp hmem with hh | hh
          · subst hm; exact absurd hh.symm (by decide)
          · exact absurd (List.all_eq_true.mp hall _ hh) (by decide)
      · simp only [hp, hm, if_false] at h
        match hpd : parseDigits (c :: rest) with
        | none => rw [hpd] at h; exact absurd h (by simp)
        | some m =>
          rw [hpd] at h
          have hall := parseDigits_all hpd
          exact absurd (List.all_eq_true.mp hall _ hmem) (by decide)

theorem goAtoi_ne_nil {l : List Char} {v : Int} (h : goAtoi l = some v) : l ≠ [] := by
  intro hh
  subst hh
  exact absurd h (by simp [goAtoi])

/-! ## Lemmas: splitting -/

theorem splitChar_no_sep {sep : Char} : ∀ (a acc : List Char), sep ∉ a →
    splitChar sep a acc = [acc.reverse ++ a]
  | [], acc, _ => by simp [splitChar]
  | c :: cs, acc, h => by
    have hc : ¬ (c = sep) := fun hh => h (hh ▸ List.mem_cons_self c cs)
    have hcs : sep ∉ cs := fun hh => h (List.mem_cons_of_mem _ hh)
    simp [splitChar, hc, splitChar_no_sep cs (c :: acc) hcs]

theorem splitChar_append {sep : Char} : ∀ (a b acc : List Char), sep ∉ a →
    splitChar sep (a ++ sep :: b) acc = (acc.reverse ++ a) :: splitChar sep b []
  | [], b, acc, _ => by simp [splitChar]
  | c :: cs, b, acc, h => by
    have hc : ¬ (c = sep) := fun hh => h (hh ▸ List.mem_cons_self c cs)
    have hcs : sep ∉ cs := fun hh => h (List.mem_cons_of_mem _ hh)
    simp [splitChar, hc, splitChar_append cs b (c :: acc) hcs]

theorem splitChar_two_fields {sep : Char} {s1 s2 : List Char}
    (h1 : sep ∉ s1) (h2 : sep ∉ s2) :
    splitChar sep (s1 ++ sep :: s2) [] = [s1, s2] := by
  rw [splitChar_append s1 s2 [] h1, splitChar_no_sep s2 [] h2]
  simp

/-! ## Lemmas: server resize decode -/

theorem goUInt16_natCast (n : Nat) : goUInt16 (n : Int) = n % 65536 := by
  unfold goUInt16
  omega

theorem handleTerminalMsg_resize_parse (s1 s2 : List Char) (c r : Int)
    (h1 : goAtoi s1 = some c) (h2 : goAtoi s2 = some r)
    (hc : 0 < c) (hr : 0 < r) :
    handleTerminalMsg websocketTextMessage (resizeTag ++ (s1 ++ ':' :: s2)) =
      ServerAction.setSize (goUInt16 c) (goUInt16 r) := by
  have hlen7 : resizeTag.length = 7 := by decide
  have hk1 : ':' ∉ s1 := goAtoi_no_colon h1
  have hk2 : ':' ∉ s2 := goAtoi_no_colon h2
  have htake : (resizeTag ++ (s1 ++ ':' :: s2)).take 7 = resizeTag :=
    List.take_left' hlen7
  have hdrop : (resizeTag ++ (s1 ++ ':' :: s2)).drop 7 = s1 ++ ':' :: s2 :=
    List.drop_left' hlen7
  have hlength : 7 < (resizeTag ++ (s1 ++ ':' :: s2)).length := by
    rw [List.length_append, hlen7, List.length_append, List.length_cons]
    omega
  rw [handleTerminalMsg, if_pos rfl, if_pos ⟨hlength, htake⟩, hdrop,
    splitChar_two_fields hk1 hk2]
  simp only [h1, h2]
  rw [if_pos ⟨hc, hr⟩]

/-! ## Claim C1: resize round-trip -/

/-- C1 (amended): for every `0 < cols ≤ 65535` and `0 < rows ≤ 65535`,
encoding a resize control message as `resize:cols:rows` with the client's
encoder and decoding it with the server's text-message handler applies a PTY
resize of exactly `(cols, rows)`.  (Above 65535 the Go `uint16` conversion
truncates, so the round-trip as originally claimed fails; see the
counterexample.) -/
theorem resize_roundtrip (cols rows : Nat) (h1 : 0 < cols) (h2 : cols ≤ 65535)
    (h3 : 0 < rows) (h4 : rows ≤ 65535) :
    handleTerminalMsg websocketTextMessage (encodeResizeList cols rows) =
      ServerAction.setSize cols rows := by
  have ha : goAtoi (natReprL cols) = some (cols : Int) :=
    goAtoi_natReprL (by unfold int64Max; omega)
  have hb : goAtoi (natReprL rows) = some (rows : Int) :=
    goAtoi_natReprL (by unfold int64Max; omega)
  have hmain := handleTerminalMsg_resize_parse (natReprL cols) (natReprL rows)
    (cols : Int) (rows : Int) ha hb (by exact_mod_cast h1) (by exact_mod_cast h3)
  rw [encodeResizeList, hmain, goUInt16_natCast, goUInt16_natCast,
    Nat.mod_eq_of_lt (by omega), Nat.mod_eq_of_lt (by omega)]

/-- Witness for `resize_roundtrip` at the concrete size 80 x 24. -/
theorem resize_roundtrip_witness :
    handleTerminalMsg websocketTextMessage (encodeResizeList 80 24) =
      ServerAction.setSize 80 24 :=
  resize_roundtrip 80 24 (by decide) (by decide) (by decide) (by decide)

/-- C1 counterexample: for `cols = 65536 > 0`, `rows = 24 > 0`, encoding and
then decoding applies a resize of `(0, 24)`, not `(65536, 24)`: the claim's
universally quantified round-trip is false. -/
theorem resize_roundtrip_counterexample :
    handleTerminalMsg websocketTextMessage (encodeResizeList 65536 24) ≠
      ServerAction.setSize 65536 24 ∧
    handleTerminalMsg websocketTextMessage (encodeResizeList 65536 24) =
      ServerAction.setSize 0 24 := by
  decide

/-! ## Claim C2: malformed resize handling -/

/-- C2 (amended): for every inbound text message strictly longer than the
7-character marker whose first seven characters are `resize:` and whose
remainder does not decode to two positive integers, the server neither
resizes nor writes to the PTY nor errors; the payload consisting of exactly
`resize:` is instead written to the PTY verbatim (the length guard
`len(p) > 7` sends it down the input branch). -/
theorem malformed_resize_noop :
    (∀ p : List Char, 7 < p.length → p.take 7 = resizeTag →
      resizeWellFormed (p.drop 7) = false →
      handleTerminalMsg websocketTextMessage p = ServerAction.noAction) ∧
    handleTerminalMsg websocketTextMessage "resize:".data =
      ServerAction.writePty "resize:".data := by
  refine ⟨?_, by decide⟩
  intro p hlen htake hwf
  rw [handleTerminalMsg, if_pos rfl, if_pos ⟨hlen, htake⟩]
  unfold resizeWellFormed at hwf
  rcases hsp : splitChar ':' (p.drop 7) [] with _ | ⟨s1, tl⟩
  · rfl
  · rcases tl with _ | ⟨s2, tl2⟩
    · rfl
    · rcases tl2 with _ | ⟨s3, tl3⟩
      · rw [hsp] at hwf
        rcases hg1 : goAtoi s1 with _ | c
        · simp only [hg1]
        · rcases hg2 : goAtoi s2 with _ | r
          · simp only [hg1, hg2]
          · simp only [hg1, hg2] at hwf ⊢
            rw [if_neg]
            rintro ⟨hc, hr⟩
            rw [decide_eq_true hc, decide_eq_true hr] at hwf
            exact absurd hwf (by decide)
      · rfl

/-- Witness for `malformed_resize_noop` at the zero-dimension payload
`resize:0:40`. -/
theorem malformed_resize_noop_witness :
    handleTerminalMsg websocketTextMessage "resize:0:40".data =
      ServerAction.noAction :=
  malformed_resize_noop.1 "resize:0:40".data (by decide) (by decide) (by decide)

/-- C2 counterexample: the payload consisting of exactly `resize:` begins
with the reserved marker and its (empty) remainder decodes to nothing, yet
the server writes it to the PTY instead of dropping it, because the guard at
server.go:196 requires the payload to be strictly longer than the marker. -/
theorem malformed_resize_counterexample :
    "resize:".data.take 7 = resizeTag ∧
    resizeWellFormed ("resize:".data.drop 7) = false ∧
    handleTerminalMsg websocketTextMessage "resize:".data =
      ServerAction.writePty "resize:".data := by
  decide

/-! ## Claim C8: uint16 truncation of resize dimensions -/

/-- C8: whenever both resize fields parse as positive integers, the applied
PTY size is the requested one reduced modulo 2^16; concretely the requested
`65536:24` is applied as `(0, 24)` and `70000:40` as `(4464, 40)`. -/
theorem resize_uint16_truncation :
    (∀ (s1 s2 : List Char) (c r : Int),
      goAtoi s1 = some c → goAtoi s2 = some r → 0 < c → 0 < r →
      handleTerminalMsg websocketTextMessage (resizeTag ++ (s1 ++ ':' :: s2)) =
        ServerAction.setSize ((c % 65536).toNat) ((r % 65536).toNat)) ∧
    handleTerminalMsg websocketTextMessage "resize:65536:24".data =
      ServerAction.setSize 0 24 ∧
    handleTerminalMsg websocketTextMessage "resize:70000:40".data =
      ServerAction.setSize 4464 40 := by
  refine ⟨?_, by decide, by decide⟩
  intro s1 s2 c r h1 h2 hc hr
  exact handleTerminalMsg_resize_parse s1 s2 c r h1 h2 hc hr

/-- Witness for `resize_uint16_truncation` at the concrete request
`resize:70000:40`. -/
theorem resize_uint16_truncation_witness :
    handleTerminalMsg websocketTextMessage
        (resizeTag ++ ("70000".data ++ ':' :: "40".data)) =
      ServerAction.setSize (((70000 : Int) % 65536).toNat)
        (((40 : Int) % 65536).toNat) :=
  resize_uint16_truncation.1 "70000".data "40".data 70000 40
    (by decide) (by decide) (by decide) (by decide)

/-! ## Claim C9: non-text messages are silently discarded -/

/-- C9: every inbound message whose type is not text produces no PTY write,
no resize and no error: the inbound pump's only branch is on
`messageType == websocket.TextMessage`. -/
theorem nontext_message_discarded (mt : Nat) (p : List Char)
    (h : mt ≠ websocketTextMessage) :
    handleTerminalMsg mt p = ServerAction.noAction := by
  rw [handleTerminalMsg, if_neg h]

/-- Witness for `nontext_message_discarded` at a binary-typed payload. -/
theorem nontext_message_discarded_witness :
    handleTerminalMsg websocketBinaryMessage "echo hi".data =
      ServerAction.noAction :=
  nontext_message_discarded websocketBinaryMessage "echo hi".data (by decide)

/-! ## Claim C3: the disconnect action is single-fire -/

theorem clientDisconnect_after_fired (d : Nat) :
    ∀ (l : List String) (st : DisconnectState), st.onceDone = true →
      l.foldl (clientDisconnect d) st = st
  | [], _, _ => rfl
  | r :: rs, st, h => by
    rw [List.foldl_cons, clientDisconnect, if_pos h]
    exact clientDisconnect_after_fired d rs st h

/-- C3: for every elapsed duration and every sequence of two or more calls of
the `disconnect` closure with arbitrary reasons, exactly one disconnect line
is printed, it carries the first call's reason, and any call made once the
`sync.Once` has fired leaves the state untouched. -/
theorem disconnect_single_fire (d : Nat) (r : String) (rs : List String)
    (_h : rs ≠ []) :
    (((r :: rs).foldl (clientDisconnect d) ⟨false, []⟩).printed =
      [disconnectLine d r]) ∧
    (∀ (st : DisconnectState) (r2 : String), st.onceDone = true →
      clientDisconnect d st r2 = st) := by
  constructor
  · rw [List.foldl_cons]
    have h1 : clientDisconnect d ⟨false, []⟩ r =
        ⟨true, [disconnectLine d r]⟩ := by
      rw [clientDisconnect]
      simp
    rw [h1, clientDisconnect_after_fired d rs _ rfl]
  · intro st r2 hst
    rw [clientDisconnect, if_pos hst]

/-- Witness for `disconnect_single_fire`: three racing callers, only the
first reason printed. -/
theorem disconnect_single_fire_witness :
    ((["connection error", "client closed", "output error"].foldl
        (clientDisconnect 7) ⟨false, []⟩).printed =
      [disconnectLine 7 "connection error"]) ∧
    (∀ (st : DisconnectState) (r2 : String), st.onceDone = true →
      clientDisconnect 7 st r2 = st) :=
  disconnect_single_fire 7 "connection error" ["client closed", "output error"]
    (by decide)

/-! ## Claim C4: at-most-one forced kill with bounded grace -/

/-- C4: during teardown, the forced kill is issued exactly when the child
does not exit voluntarily within the one-second grace period after SIGTERM,
and in every case at most one forced kill occurs. -/
theorem teardown_single_forced_kill (e : Option Nat) :
    ((closeSessionActions e).count TeardownAction.forceKill =
      if exitsWithinGrace e then 0 else 1) ∧
    (closeSessionActions e).count TeardownAction.forceKill ≤ 1 := by
  unfold closeSessionActions
  cases exitsWithinGrace e
  · exact ⟨by decide, by decide⟩
  · exact ⟨by decide, by decide⟩

/-! ## Claim C5: duration formatting -/

/-- C5: the formatted duration is `S seconds` below one minute,
`M minutes, S seconds` below one hour and `H hours, M minutes, S seconds`
from one hour on, with `H = d / 3600`, `M = (d / 60) % 60`, `S = d % 60`;
in particular 45 s, 125 s and 3725 s format as claimed. -/
theorem duration_formatting (d : Nat) :
    (formatDuration d =
      if 3600 ≤ d then
        natRepr (d / 3600) ++ " hours, " ++ natRepr ((d / 60) % 60) ++
          " minutes, " ++ natRepr (d % 60) ++ " seconds"
      else if 60 ≤ d then
        natRepr ((d / 60) % 60) ++ " minutes, " ++ natRepr (d % 60) ++ " seconds"
      else natRepr d ++ " seconds") ∧
    formatDuration 45 = "45 seconds" ∧
    formatDuration 125 = "2 minutes, 5 seconds" ∧
    formatDuration 3725 = "1 hours, 2 minutes, 5 seconds" := by
  refine ⟨?_, by decide, by decide, by decide⟩
  simp only [formatDuration]
  by_cases h1 : 3600 ≤ d
  · rw [if_pos (by omega : 0 < d / 3600), if_pos h1]
  · rw [if_neg (by omega : ¬ 0 < d / 3600), if_neg h1]
    by_cases h2 : 60 ≤ d
    · rw [if_pos (by omega : 0 < d / 60 % 60), if_pos h2]
    · rw [if_neg (by omega : ¬ 0 < d / 60 % 60), if_neg h2,
        Nat.mod_eq_of_lt (by omega)]

/-! ## Claim C7: the closing flag's access discipline -/

/-- C7 refutation: the `isClosing` accesses in `handleTerminal` are all
unsynchronized plain-bool accesses, so the demanded atomic-or-mutex
discipline does not hold, and a cross-goroutine unsynchronized
read/write pair (a Go data race) exists. -/
theorem isClosing_unsynchronized :
    ¬ guardedDiscipline isClosingAccesses ∧ hasDataRace isClosingAccesses := by
  constructor
  · intro h
    exact absurd (h ⟨1, MemAccessKind.readAccess,
      SyncDiscipline.unsynchronized, 183⟩ (by decide)) (by decide)
  · exact ⟨⟨2, MemAccessKind.readAccess, SyncDiscipline.unsynchronized, 236⟩,
      by decide, ⟨3, MemAccessKind.writeAccess, SyncDiscipline.unsynchronized, 252⟩,
      by decide, by decide, Or.inr rfl, rfl, rfl⟩

/-! ## Claim C10: Connect overwrites the handshake timeout -/

/-- C10: `Connect` assigns a 5-second handshake timeout to whatever dialer
was installed with `SetCustomDialer` (the CLI installs one with a 10-second
timeout), leaving the dialer's other fields unchanged. -/
theorem connect_overrides_handshake_timeout (c : Client) (d : WSDialer)
    (p : String) :
    (connectEffectiveDialer (SetCustomDialer c d)).handshakeTimeoutNs =
      5000000000 ∧
    (connectEffectiveDialer (SetCustomDialer c d)).proxy = d.proxy ∧
    (connectEffectiveDialer (SetCustomDialer c d)).rest = d.rest ∧
    (cliProxyDialer p).handshakeTimeoutNs = 10000000000 ∧
    (connectEffectiveDialer (SetCustomDialer c (cliProxyDialer p))).handshakeTimeoutNs =
      5000000000 ∧
    (connectEffectiveDialer (SetCustomDialer c (cliProxyDialer p))).proxy = some p :=
  ⟨rfl, rfl, rfl, rfl, rfl, rfl⟩

/-! ## Lemmas: URL normalization -/

theorem splitNChar_length (sep : Char) :
    ∀ (l : List Char) (b : Nat) (acc : List Char),
      (splitNChar sep l b acc).length = min (l.count sep + 1) (b + 1)
  | [], b, acc => by
    show 1 = min (List.count sep [] + 1) (b + 1)
    simp only [List.count_nil]
    omega
  | c :: cs, 0, acc => by
    have he : splitNChar sep (c :: cs) 0 acc = splitNChar sep cs 0 (c :: acc) := rfl
    rw [he, splitNChar_length sep cs 0 (c :: acc)]
    omega
  | c :: cs, b + 1, acc => by
    rw [splitNChar]
    by_cases hc : c = sep
    · rw [if_pos hc, List.length_cons, splitNChar_length sep cs b []]
      have hb : (c == sep) = true := by simpa using hc
      simp only [List.count_cons, hb, if_true]
      omega
    · rw [if_neg hc, splitNChar_length sep cs (b + 1) (c :: acc)]
      have hb : (c == sep) = false := by simpa using hc
      simp only [List.count_cons, hb, Bool.false_eq_true, if_false]

theorem take6_ws_ne_wss (r : List Char) : (wsScheme ++ r).take 6 ≠ wssScheme := by
  cases r with
  | nil => decide
  | cons x xs =>
    intro h
    have he : (wsScheme ++ x :: xs).take 6 = ('w' :: 's' :: ':' :: '/' :: '/' :: [x]) := rfl
    rw [he] at h
    have h3 := congrArg (fun t : List Char => t[2]!) h
    have h4 : (':' : Char) = 's' := h3
    exact absurd h4 (by decide)

theorem afterScheme_ws (r : List Char) : afterSchemeChars (wsScheme ++ r) = r := by
  unfold afterSchemeChars
  rw [if_neg (take6_ws_ne_wss r), List.drop_left' (by decide : wsScheme.length = 5)]

theorem afterScheme_wss (r : List Char) : afterSchemeChars (wssScheme ++ r) = r := by
  unfold afterSchemeChars
  rw [if_pos (List.take_left' (by decide : wssScheme.length = 6)),
    List.drop_left' (by decide : wssScheme.length = 6)]

theorem normalizeScheme_shape (l : List Char) :
    (∃ r, normalizeScheme l = wsScheme ++ r) ∨
    (∃ r, normalizeScheme l = wssScheme ++ r) := by
  unfold normalizeScheme
  split
  · exact Or.inl ⟨_, rfl⟩
  · split
    · exact Or.inr ⟨_, rfl⟩
    · split
      · exact Or.inl ⟨_, rfl⟩
      · next h4 =>
        rcases not_not.mp h4 with h5 | h5
        · exact Or.inl ⟨l.drop 5, by rw [← h5]; exact (List.take_append_drop 5 l).symm⟩
        · exact Or.inr ⟨l.drop 6, by rw [← h5]; exact (List.take_append_drop 6 l).symm⟩

theorem append_condition_eq (s : List Char)
    (h : (∃ r, s = wsScheme ++ r) ∨ (∃ r, s = wssScheme ++ r)) :
    ((splitNChar '/' s 3 []).length = 3 ↔ '/' ∉ afterSchemeChars s) := by
  rcases h with ⟨r, rfl⟩ | ⟨r, rfl⟩
  · rw [splitNChar_length, afterScheme_ws, List.count_append,
      (by decide : wsScheme.count '/' = 2)]
    constructor
    · intro hlen
      exact List.count_eq_zero.mp (by omega)
    · intro hmem
      have := List.count_eq_zero.mpr hmem
      omega
  · rw [splitNChar_length, afterScheme_wss, List.count_append,
      (by decide : wssScheme.count '/' = 2)]
    constructor
    · intro hlen
      exact List.count_eq_zero.mp (by omega)
    · intro hmem
      have := List.count_eq_zero.mpr hmem
      omega

/-! ## Claim C6: client URL normalization -/

/-- C6 (amended): for every non-empty input address, `NewClient` rewrites
`http://` to `ws://` and `https://` to `wss://`, prepends `ws://` when
neither socket scheme is present, and appends `/terminal` exactly when no
`/` occurs after the scheme's host part — i.e. it agrees with the claim's
normalization rules; the empty input is instead replaced wholesale by the
default `ws://localhost/terminal`. -/
theorem NewClient_matches_claim (url : String) (h : url.data ≠ []) :
    ((NewClient url).URL).data = specNewClientURL url.data := by
  show newClientURLList url.data = specNewClientURL url.data
  simp only [newClientURLList, specNewClientURL]
  rw [if_neg h]
  have hno : specNormalizeScheme url.data = normalizeScheme url.data := rfl
  rw [hno]
  have hiff := append_condition_eq _ (normalizeScheme_shape url.data)
  by_cases hc : '/' ∈ afterSchemeChars (normalizeScheme url.data)
  · rw [if_pos hc, if_neg (fun hlen => (hiff.mp hlen) hc)]
  · rw [if_neg hc, if_pos (hiff.mpr hc)]

/-- Witness for `NewClient_matches_claim` at a host-and-port input. -/
theorem NewClient_matches_claim_witness :
    ((NewClient "example.com:8080").URL).data =
      specNewClientURL "example.com:8080".data :=
  NewClient_matches_claim "example.com:8080" (by decide)

/-- C6 counterexample: on the empty input, `NewClient` produces the default
`ws://localhost/terminal`, whereas the claim's rewriting rules produce
`ws:///terminal`; the claim's universal quantification over every input
string is therefore false. -/
theorem NewClient_empty_counterexample :
    (NewClient "").URL = "ws://localhost/terminal" ∧
    specNewClientURL "".data = "ws:///terminal".data ∧
    ((NewClient "").URL).data ≠ specNewClientURL "".data := by
  decide

end Linkterm
